import Mathlib

/-!
Verification of the Convert-to-PNG batch converter
(`convert_images.py`, with the single-format variants under `unic_codes/`).

We shallowly embed the core pipeline of `process_directory`: output-root
creation, glob discovery per extension, output-path mapping via
`relative_to` / `with_suffix`, parent-directory creation with
`mkdir(parents=True, exist_ok=True)`, and the worker-pool dispatch with
success/failure aggregation.

Paths are modelled as lists of name components and names as lists of
characters.  The filesystem contents seen by a run, the outcomes of the
external codec calls (PIL / Wand), and genuine `mkdir` filesystem
failures are oracle inputs of the embedding, since they are outside the
program.  Glob pattern matching is modelled with the case-sensitive
(POSIX) semantics of `pathlib`.
-/

namespace ConvertToPng

/-- A file-name component, as its sequence of characters. -/
abbrev Name := List Char

/-- A filesystem path, as its list of name components. -/
abbrev FPath := List Name

/-- Characters of a string literal. -/
def str (s : String) : Name := s.data

/-- Python `str.rfind` for the dot character: index of the last
occurrence in the name, `none` when absent. -/
def rfindDot (n : Name) : Option Nat :=
  match n.reverse.findIdx? (fun c => c == '.') with
  | some j => some (n.length - 1 - j)
  | none => none

/-- Length of Python's `PurePath.suffix` of a file name: the suffix is
`name[i:]` for `i = name.rfind(chr(46))` when `0 < i < len(name) - 1`,
and empty otherwise (so a leading-dot-only name has no suffix). -/
def pySuffixLen (n : Name) : Nat :=
  match rfindDot n with
  | some i => if 0 < i ∧ i < n.length - 1 then n.length - i else 0
  | none => 0

/-- Python's `PurePath.with_suffix` on one file name: drop the current
suffix and append the new one. -/
def pyWithSuffixName (n : Name) (suf : Name) : Name :=
  n.take (n.length - pySuffixLen n) ++ suf

/-- Python's `PurePath.stem`-like part of a name: the name without its
suffix. -/
def pyStemName (n : Name) : Name :=
  n.take (n.length - pySuffixLen n)

/-- `with_suffix` applied to a path: rewrites the last component.
`process_directory` only applies it to discovered file paths, which
are nonempty. -/
def pyWithSuffix : FPath → Name → FPath
  | [], _ => []
  | [n], suf => [pyWithSuffixName n suf]
  | c :: c2 :: rest, suf => c :: pyWithSuffix (c2 :: rest) suf

/-- A path with the suffix of its last component removed. -/
def stemPath : FPath → FPath
  | [] => []
  | [n] => [pyStemName n]
  | c :: c2 :: rest => c :: stemPath (c2 :: rest)

/-- Python exceptions the embedded code can raise. -/
inductive PyErr where
  | valueError
  | osError (d : FPath)
deriving DecidableEq, Repr

/-- `Path.relative_to(root)` (line 87): strip `root` from the front of
the path; a `ValueError` when the path is not under `root`. -/
def pyRelativeTo : FPath → FPath → Except PyErr FPath
  | p, [] => .ok p
  | [], _ :: _ => .error .valueError
  | c :: cs, r :: rs => if c = r then pyRelativeTo cs rs else .error .valueError

/-- The extension lists of `process_directory` (line 70). -/
def extensionsFor (conversionType : String) : List Name :=
  if conversionType = "HEIC" then
    [str ".heic", str ".HEIC", str ".heif", str ".HEIF"]
  else
    [str ".cr2", str ".CR2"]

/-- Whether a file matches the glob pattern `*{ext}` on its name: the
last component ends with `ext` as a literal string (case-sensitive
POSIX matching). -/
def matchesExt (ext : Name) (p : FPath) : Bool :=
  match p.getLast? with
  | some n => ext.isSuffixOf n
  | none => false

/-- `Path(input_dir).glob('**/*' + ext)` (line 75): every file of the
subtree whose name ends with `ext`, returned rooted at `input_dir`.
`fs` lists the subtree's files relative to `input_dir`, in traversal
order. -/
def globExt (inputDir : FPath) (fs : List FPath) (ext : Name) : List FPath :=
  (fs.filter (matchesExt ext)).map (fun p => inputDir ++ p)

/-- The discovery loop (lines 73–75): the glob results of each listed
extension, concatenated in order. -/
def discover (inputDir : FPath) (fs : List FPath) (conversionType : String) :
    List FPath :=
  (extensionsFor conversionType).flatMap (globExt inputDir fs)

/-- The directories that `mkdir(parents=True)` of `d` brings into
existence: every initial segment of `d`. -/
def dirChain (d : FPath) : List FPath :=
  (List.range (d.length + 1)).map (fun k => d.take k)

/-- `Path.mkdir(parents, exist_ok)`, modelled over an explicit list of
existing directories plus an oracle `fail` marking targets on which
the filesystem genuinely fails (permissions, disk full).  With
`exist_ok = true` an already-existing directory is not an error; with
`parents = true` missing intermediate directories are created too. -/
def pyMkdir (dirs : List FPath) (fail : FPath → Bool) (d : FPath)
    (parents exist_ok : Bool) : Except PyErr (List FPath) :=
  if fail d then .error (.osError d)
  else if d ∈ dirs then
    (if exist_ok then .ok dirs else .error (.osError d))
  else if parents then .ok (dirChain d ++ dirs)
  else if d.dropLast ∈ dirs then .ok (d :: dirs)
  else .error (.osError d)

/-- One conversion task, an (input path, output path) pair as appended
to `conversion_tasks` (line 93). -/
abbrev Task := FPath × FPath

/-- Lines 87–88: the output path of one discovered file —
`Path(output_dir) / file_path.relative_to(input_dir).with_suffix(".png")`. -/
def mapOutput (inputDir outputDir : FPath) (f : FPath) : Except PyErr FPath :=
  match pyRelativeTo f inputDir with
  | .error e => .error e
  | .ok rel => .ok (outputDir ++ pyWithSuffix rel (str ".png"))

/-- Observable events of a run, in order: directory creations, glob
scans, the empty-discovery notice, task submissions to the pool, and
task completions. -/
inductive Event where
  | mkdir (d : FPath)
  | scan (ext : Name)
  | notice
  | submit (t : Task)
  | complete (t : Task) (ok : Bool)
deriving DecidableEq, Repr

/-- Whether an event is a task submission to the worker pool. -/
def isSubmit : Event → Bool
  | .submit _ => true
  | _ => false

/-- Whether an event is a directory creation. -/
def isMkdir : Event → Bool
  | .mkdir _ => true
  | _ => false

/-- The environment a run executes against: the files under the input
root (relative paths, traversal order), the directories existing at
start, the genuine-failure oracle for `mkdir`, and the per-input-file
outcome of the conversion adapter. -/
structure World where
  fs : List FPath
  dirs : List FPath
  mkdirFail : FPath → Bool
  convOk : FPath → Bool

/-- The tally `process_directory` accumulates and reports
(lines 99–117). -/
structure RunResult where
  successful : Nat
  failed : Nat
deriving DecidableEq, Repr

/-- The task-preparation loop (lines 85–93): for each discovered file,
compute the output path, create its parent directory, and append the
(input, output) pair.  Returns the loop's result (the task list, or
the uncaught exception that aborted it), the directory state, and the
`mkdir` events issued. -/
def prepTasks (inputDir outputDir : FPath) (fail : FPath → Bool) :
    List FPath → List FPath →
    Except PyErr (List Task) × List FPath × List Event
  | [], dirs => (.ok [], dirs, [])
  | f :: rest, dirs =>
    match mapOutput inputDir outputDir f with
    | .error e => (.error e, dirs, [])
    | .ok outp =>
      match pyMkdir dirs fail outp.dropLast true true with
      | .error e => (.error e, dirs, [.mkdir outp.dropLast])
      | .ok dirs1 =>
        match prepTasks inputDir outputDir fail rest dirs1 with
        | (res, dirs2, tr) =>
          (res.map (fun tasks => (f, outp) :: tasks), dirs2,
            .mkdir outp.dropLast :: tr)

/-- The aggregation over completed futures (lines 107–113): each
boolean result increments exactly one of the two counters. -/
def aggregate : List Bool → Nat × Nat
  | [] => (0, 0)
  | b :: rest =>
    match aggregate rest with
    | (s, f) => if b then (s + 1, f) else (s, f + 1)

deriving instance DecidableEq for Except

/-- The observable outcome of a `process_directory` call: the Python
result (`none` for the bare `return` of line 79, the printed tally
otherwise, or an uncaught exception), the event trace, and the final
directory state. -/
structure Outcome where
  result : Except PyErr (Option RunResult)
  trace : List Event
  dirs : List FPath
deriving DecidableEq, Repr

/-- The events of output-root creation and of the discovery scans
(lines 67–75). -/
def scanEvents (conversionType : String) (outputDir : FPath) : List Event :=
  .mkdir outputDir :: (extensionsFor conversionType).map Event.scan

/-- `process_directory(input_dir, output_dir, conversion_type,
max_workers)` (lines 56–117), over an explicit environment `w`.
`maxWorkers` bounds the pool's concurrency (modelled separately by
`PoolStep`); it does not affect the aggregated outcome. -/
def processDirectory (inputDir outputDir : FPath) (conversionType : String)
    (maxWorkers : Nat) (w : World) : Outcome :=
  match pyMkdir w.dirs w.mkdirFail outputDir true true with
  | .error e => ⟨.error e, [.mkdir outputDir], w.dirs⟩
  | .ok dirs0 =>
    if (discover inputDir w.fs conversionType).isEmpty then
      ⟨.ok none, scanEvents conversionType outputDir ++ [.notice], dirs0⟩
    else
      match prepTasks inputDir outputDir w.mkdirFail
          (discover inputDir w.fs conversionType) dirs0 with
      | (.error e, dirs1, tr) =>
        ⟨.error e, scanEvents conversionType outputDir ++ tr, dirs1⟩
      | (.ok tasks, dirs1, tr) =>
        ⟨.ok (some ⟨(aggregate (tasks.map (fun t => w.convOk t.1))).1,
              (aggregate (tasks.map (fun t => w.convOk t.1))).2⟩),
          scanEvents conversionType outputDir ++ tr
            ++ tasks.map Event.submit
            ++ tasks.map (fun t => Event.complete t (w.convOk t.1)),
          dirs1⟩

/-- The diagnostic line both adapters print on failure (lines 28 and
53): `"Erro ao converter {input_path}: {str(e)}"`, over the rendered
input path. -/
def errMsg (input_path : FPath) (e : String) : Name :=
  str "Erro ao converter " ++ List.intercalate (str "/") input_path
    ++ str ": " ++ str e

/-- Outcomes of the external PIL calls made by `convert_heic_to_png`:
`Image.open(input_path)` and `img.save(output_path, "PNG",
optimize=True)` each either succeed or raise an exception carrying a
message.  The decoded pixels are out of scope; only the success or
failure of each call matters to the adapter contract. -/
structure PilEnv where
  openRes : FPath → Except String Unit
  saveRes : FPath → FPath → Except String Unit

/-- `convert_heic_to_png(input_path, output_path)` (lines 14–29):
one decode/encode attempt, every exception caught and turned into a
`False` return plus one diagnostic line. -/
def convert_heic_to_png (env : PilEnv) (input_path output_path : FPath) :
    Bool × List Name :=
  match env.openRes input_path with
  | .error e => (false, [errMsg input_path e])
  | .ok _ =>
    match env.saveRes input_path output_path with
    | .error e => (false, [errMsg input_path e])
    | .ok _ => (true, [])

/-- The settings `convert_cr2_to_png` applies to the decoded image
before saving (lines 42–47). -/
structure ImgCfg where
  format : String
  compression_quality : Nat
  alphaRemoved : Bool
deriving DecidableEq, Repr

/-- Outcomes of the external Wand/ImageMagick calls made by
`convert_cr2_to_png`: opening the raw file, reading its alpha channel,
and saving under the chosen settings. -/
structure WandEnv where
  openRes : FPath → Except String Unit
  alphaChannel : FPath → Bool
  saveRes : FPath → FPath → ImgCfg → Except String Unit

/-- `convert_cr2_to_png(input_path, output_path)` (lines 31–54): set
format `png` and quality 90, drop an alpha channel when present, save;
every exception caught and turned into a `False` return plus one
diagnostic line. -/
def convert_cr2_to_png (env : WandEnv) (input_path output_path : FPath) :
    Bool × List Name :=
  match env.openRes input_path with
  | .error e => (false, [errMsg input_path e])
  | .ok _ =>
    match env.saveRes input_path output_path
        ⟨"png", 90, env.alphaChannel input_path⟩ with
    | .error e => (false, [errMsg input_path e])
    | .ok _ => (true, [])

/-- A state of the worker pool: tasks not yet started (in submission
order), tasks currently executing, and finished tasks with their
boolean results. -/
structure PoolState where
  queued : List Task
  running : List Task
  done : List (Task × Bool)
deriving DecidableEq, Repr

/-- Scheduling semantics of the worker pool used on lines 102–113
(`concurrent.futures.ThreadPoolExecutor(max_workers=N)`, an external
collaborator): a queued task may start only while fewer than `N` tasks
are running, dispatch follows submission order, and a running task may
finish at any time in any order, recording its adapter result. -/
inductive PoolStep (N : Nat) (res : Task → Bool) : PoolState → PoolState → Prop
  | start (t : Task) (rest running : List Task) (done : List (Task × Bool)) :
      running.length < N →
      PoolStep N res ⟨t :: rest, running, done⟩ ⟨rest, t :: running, done⟩
  | finish (queued r1 r2 : List Task) (t : Task) (done : List (Task × Bool)) :
      PoolStep N res ⟨queued, r1 ++ t :: r2, done⟩
        ⟨queued, r1 ++ r2, done ++ [(t, res t)]⟩

/-- Pool states reachable from a given state. -/
abbrev PoolReach (N : Nat) (res : Task → Bool) : PoolState → PoolState → Prop :=
  Relation.ReflTransGen (PoolStep N res)

/-! ### Concrete values for counterexamples and witnesses -/

/-- Example input root `in`. -/
def exIn : FPath := [str "in"]

/-- Example output root `out`. -/
def exOut : FPath := [str "out"]

/-- The input file `in/photo.heic`. -/
def exHeic : FPath := [str "in", str "photo.heic"]

/-- The input file `in/photo.HEIC`. -/
def exHEIC : FPath := [str "in", str "photo.HEIC"]

/-- A subtree holding `photo.heic` and `photo.HEIC` side by side. -/
def exFs : List FPath := [[str "photo.heic"], [str "photo.HEIC"]]

/-- An environment over `exFs` where only `photo.heic` converts. -/
def exWorld : World :=
  ⟨exFs, [], fun _ => false, fun p => decide (p = exHeic)⟩

/-- An environment with an empty subtree. -/
def exEmptyWorld : World :=
  ⟨[], [], fun _ => false, fun _ => true⟩

/-- An environment where creating `out/d` fails with an `OSError`,
while a second file `b.heic` would otherwise convert fine. -/
def exBadWorld : World :=
  ⟨[[str "d", str "a.heic"], [str "b.heic"]], [],
    fun p => decide (p = [str "out", str "d"]), fun _ => true⟩

/-- An example conversion task. -/
def exTask : Task := (exHeic, [str "out", str "photo.png"])

/-- A PIL environment whose decode always fails. -/
def exPilEnv : PilEnv :=
  ⟨fun _ => .error "decode failed", fun _ _ => .ok ()⟩

/-- A Wand environment whose calls all succeed. -/
def exWandEnv : WandEnv :=
  ⟨fun _ => .ok (), fun _ => false, fun _ _ _ => .ok ()⟩

/-! ### Path lemmas -/

lemma pyRelativeTo_append (root p : FPath) :
    pyRelativeTo (root ++ p) root = .ok p := by
  induction root with
  | nil => simp [pyRelativeTo]
  | cons r rs ih => simp [pyRelativeTo, ih]

lemma pyRelativeTo_ok {f root rel : FPath}
    (h : pyRelativeTo f root = .ok rel) : f = root ++ rel := by
  induction root generalizing f with
  | nil =>
    simp only [pyRelativeTo] at h
    simp [Except.ok.injEq] at h
    simp [h]
  | cons r rs ih =>
    cases f with
    | nil => simp [pyRelativeTo] at h
    | cons c cs =>
      by_cases hc : c = r
      · subst hc
        simp only [pyRelativeTo, if_pos rfl] at h
        simpa using ih h
      · simp [pyRelativeTo, hc] at h

lemma pyWithSuffix_concat (q : FPath) (n suf : Name) :
    pyWithSuffix (q ++ [n]) suf = q ++ [pyWithSuffixName n suf] := by
  induction q with
  | nil => rfl
  | cons c q ih =>
    cases q with
    | nil => rfl
    | cons a q2 =>
      simp only [List.cons_append] at ih ⊢
      rw [pyWithSuffix, ih]

lemma stemPath_concat (q : FPath) (n : Name) :
    stemPath (q ++ [n]) = q ++ [pyStemName n] := by
  induction q with
  | nil => rfl
  | cons c q ih =>
    cases q with
    | nil => rfl
    | cons a q2 =>
      simp only [List.cons_append] at ih ⊢
      rw [stemPath, ih]

lemma pyWithSuffixName_eq_stem_append (n suf : Name) :
    pyWithSuffixName n suf = pyStemName n ++ suf := rfl

lemma getLast?_decomp {p : FPath} {n : Name} (h : p.getLast? = some n) :
    ∃ q, p = q ++ [n] := by
  induction p with
  | nil => simp at h
  | cons c rest ih =>
    cases rest with
    | nil =>
      simp [List.getLast?] at h
      exact ⟨[], by simp [h]⟩
    | cons c2 rest2 =>
      rw [List.getLast?_cons_cons] at h
      obtain ⟨q, hq⟩ := ih h
      exact ⟨c :: q, by simp [hq]⟩

lemma matchesExt_decomp {ext : Name} {p : FPath} (h : matchesExt ext p = true) :
    ∃ q n, p = q ++ [n] ∧ ext <:+ n := by
  unfold matchesExt at h
  cases hg : p.getLast? with
  | none => rw [hg] at h; cases h
  | some n =>
    rw [hg] at h
    simp [List.isSuffixOf] at h
    obtain ⟨q, hq⟩ := getLast?_decomp hg
    exact ⟨q, n, hq, h⟩

/-! ### Discovery lemmas -/

lemma discover_mem {i : FPath} {fs : List FPath} {ct : String} {f : FPath}
    (h : f ∈ discover i fs ct) :
    ∃ p, p ∈ fs ∧ f = i ++ p ∧
      ∃ ext ∈ extensionsFor ct, matchesExt ext p = true := by
  simp only [discover, globExt, List.mem_flatMap, List.mem_map,
    List.mem_filter] at h
  obtain ⟨ext, hext, p, ⟨hp, hm⟩, rfl⟩ := h
  exact ⟨p, hp, rfl, ext, hext, hm⟩

lemma discover_iff (i : FPath) (fs : List FPath) (ct : String) (p : FPath) :
    (i ++ p) ∈ discover i fs ct ↔
      p ∈ fs ∧ ∃ ext ∈ extensionsFor ct, matchesExt ext p = true := by
  simp only [discover, globExt, List.mem_flatMap, List.mem_map,
    List.mem_filter]
  constructor
  · rintro ⟨ext, hext, q, ⟨hq, hm⟩, heq⟩
    have hqp : q = p := (List.append_right_inj i).mp heq
    subst hqp
    exact ⟨hq, ext, hext, hm⟩
  · rintro ⟨hp, ext, hext, hm⟩
    exact ⟨ext, hext, p, ⟨hp, hm⟩, rfl⟩

/-! ### mkdir lemmas -/

lemma pyMkdir_ok_subset {dirs dirs' : List FPath} {fail : FPath → Bool}
    {d : FPath} {pr ex : Bool} (h : pyMkdir dirs fail d pr ex = .ok dirs') :
    ∀ x ∈ dirs, x ∈ dirs' := by
  unfold pyMkdir at h
  split at h
  · cases h
  · split at h
    · split at h
      · cases h; exact fun x hx => hx
      · cases h
    · split at h
      · cases h; exact fun x hx => List.mem_append_right _ hx
      · split at h
        · cases h; exact fun x hx => List.mem_cons_of_mem _ hx
        · cases h

lemma pyMkdir_ok_mem {dirs dirs' : List FPath} {fail : FPath → Bool}
    {d : FPath} {pr ex : Bool} (h : pyMkdir dirs fail d pr ex = .ok dirs') :
    d ∈ dirs' := by
  unfold pyMkdir at h
  split at h
  · cases h
  · rename_i hnf
    split at h
    · rename_i hmem
      split at h
      · cases h; exact hmem
      · cases h
    · split at h
      · cases h
        refine List.mem_append_left _ ?_
        exact List.mem_map.mpr ⟨d.length,
          List.mem_range.mpr (Nat.lt_succ_self _), List.take_length d⟩
      · split at h
        · cases h; exact List.mem_cons_self _ _
        · cases h

lemma pyMkdir_noFail (dirs : List FPath) (fail : FPath → Bool) (d : FPath)
    (h : fail d = false) :
    ∃ dirs', pyMkdir dirs fail d true true = .ok dirs' := by
  by_cases hd : d ∈ dirs <;> simp [pyMkdir, h, hd]

lemma dirChain_take_mem (d : FPath) (k : Nat) : d.take k ∈ dirChain d := by
  unfold dirChain
  rcases le_or_lt k d.length with hk | hk
  · exact List.mem_map.mpr ⟨k, List.mem_range.mpr (by omega), rfl⟩
  · have hdk : d.take k = d := List.take_of_length_le (by omega)
    rw [hdk]
    exact List.mem_map.mpr ⟨d.length,
      List.mem_range.mpr (by omega), List.take_length d⟩

lemma pyMkdir_create_chain {dirs : List FPath} {fail : FPath → Bool}
    {d : FPath} (hnf : fail d = false) (hnm : d ∉ dirs) :
    pyMkdir dirs fail d true true = .ok (dirChain d ++ dirs) := by
  simp [pyMkdir, hnf, hnm]

/-! ### Task-preparation lemmas -/

lemma prepTasks_dirs_mono (i o : FPath) (fail : FPath → Bool) :
    ∀ (files dirs : List FPath) {res : Except PyErr (List Task)}
      {dirs' : List FPath} {tr : List Event},
      prepTasks i o fail files dirs = (res, dirs', tr) →
      ∀ x ∈ dirs, x ∈ dirs' := by
  intro files
  induction files with
  | nil =>
    intro dirs res dirs' tr h
    simp only [prepTasks, Prod.mk.injEq] at h
    rw [← h.2.1]
    exact fun x hx => hx
  | cons f rest ih =>
    intro dirs res dirs' tr h
    rw [prepTasks] at h
    cases hmo : mapOutput i o f with
    | error e =>
      rw [hmo] at h
      dsimp only at h
      simp only [Prod.mk.injEq] at h
      rw [← h.2.1]
      exact fun x hx => hx
    | ok outp =>
      rw [hmo] at h
      dsimp only at h
      cases hmk : pyMkdir dirs fail outp.dropLast true true with
      | error e =>
        rw [hmk] at h
        dsimp only at h
        simp only [Prod.mk.injEq] at h
        rw [← h.2.1]
        exact fun x hx => hx
      | ok dirs1 =>
        rw [hmk] at h
        dsimp only at h
        cases hp : prepTasks i o fail rest dirs1 with
        | mk res2 pr =>
          obtain ⟨dirs2, tr2⟩ := pr
          rw [hp] at h
          dsimp only at h
          simp only [Prod.mk.injEq] at h
          rw [← h.2.1]
          intro x hx
          exact ih dirs1 hp x (pyMkdir_ok_subset hmk x hx)

lemma prepTasks_ok_spec (i o : FPath) (fail : FPath → Bool) :
    ∀ (files dirs : List FPath) {tasks : List Task} {dirs' : List FPath}
      {tr : List Event},
      prepTasks i o fail files dirs = (.ok tasks, dirs', tr) →
      tasks.map Prod.fst = files ∧
      (∀ t ∈ tasks, mapOutput i o t.1 = .ok t.2) ∧
      (∀ t ∈ tasks, t.2.dropLast ∈ dirs') ∧
      tr = tasks.map (fun t => Event.mkdir (t.2.dropLast)) := by
  intro files
  induction files with
  | nil =>
    intro dirs tasks dirs' tr h
    simp only [prepTasks, Prod.mk.injEq, Except.ok.injEq] at h
    rw [← h.1, ← h.2.2]
    simp
  | cons f rest ih =>
    intro dirs tasks dirs' tr h
    rw [prepTasks] at h
    cases hmo : mapOutput i o f with
    | error e =>
      rw [hmo] at h
      dsimp only at h
      simp at h
    | ok outp =>
      rw [hmo] at h
      dsimp only at h
      cases hmk : pyMkdir dirs fail outp.dropLast true true with
      | error e =>
        rw [hmk] at h
        dsimp only at h
        simp at h
      | ok dirs1 =>
        rw [hmk] at h
        dsimp only at h
        cases hp : prepTasks i o fail rest dirs1 with
        | mk res2 pr =>
          obtain ⟨dirs2, tr2⟩ := pr
          rw [hp] at h
          dsimp only at h
          cases res2 with
          | error e => simp only [Except.map, Prod.mk.injEq] at h; simp at h
          | ok tasks2 =>
            simp only [Except.map, Prod.mk.injEq, Except.ok.injEq] at h
            obtain ⟨htasks, hdirs, htr⟩ := h
            obtain ⟨ihfst, ihmo, ihpar, ihtr⟩ := ih dirs1 hp
            subst htasks hdirs htr
            refine ⟨?_, ?_, ?_, ?_⟩
            · simp [ihfst]
            · intro t ht
              rcases List.mem_cons.mp ht with rfl | ht2
              · exact hmo
              · exact ihmo t ht2
            · intro t ht
              rcases List.mem_cons.mp ht with rfl | ht2
              · exact prepTasks_dirs_mono i o fail rest dirs1 hp _
                  (pyMkdir_ok_mem hmk)
              · exact ihpar t ht2
            · simp [ihtr]

lemma prepTasks_trace_mkdir (i o : FPath) (fail : FPath → Bool) :
    ∀ (files dirs : List FPath) {res : Except PyErr (List Task)}
      {dirs' : List FPath} {tr : List Event},
      prepTasks i o fail files dirs = (res, dirs', tr) →
      ∀ e ∈ tr, isMkdir e = true := by
  intro files
  induction files with
  | nil =>
    intro dirs res dirs' tr h
    simp only [prepTasks, Prod.mk.injEq] at h
    rw [← h.2.2]
    simp
  | cons f rest ih =>
    intro dirs res dirs' tr h
    rw [prepTasks] at h
    cases hmo : mapOutput i o f with
    | error e =>
      rw [hmo] at h
      dsimp only at h
      simp only [Prod.mk.injEq] at h
      rw [← h.2.2]
      simp
    | ok outp =>
      rw [hmo] at h
      dsimp only at h
      cases hmk : pyMkdir dirs fail outp.dropLast true true with
      | error e =>
        rw [hmk] at h
        dsimp only at h
        simp only [Prod.mk.injEq] at h
        rw [← h.2.2]
        simp [isMkdir]
      | ok dirs1 =>
        rw [hmk] at h
        dsimp only at h
        cases hp : prepTasks i o fail rest dirs1 with
        | mk res2 pr =>
          obtain ⟨dirs2, tr2⟩ := pr
          rw [hp] at h
          dsimp only at h
          simp only [Prod.mk.injEq] at h
          rw [← h.2.2]
          intro e he
          rcases List.mem_cons.mp he with rfl | he2
          · rfl
          · exact ih dirs1 hp e he2

lemma prepTasks_noFail (i o : FPath) (fail : FPath → Bool)
    (hfail : ∀ d, fail d = false) :
    ∀ (files dirs : List FPath),
      (∀ f ∈ files, ∃ rel, pyRelativeTo f i = .ok rel) →
      ∃ tasks dirs' tr,
        prepTasks i o fail files dirs = (.ok tasks, dirs', tr) := by
  intro files
  induction files with
  | nil => intro dirs _; exact ⟨[], dirs, [], rfl⟩
  | cons f rest ih =>
    intro dirs hrel
    obtain ⟨rel, hrelf⟩ := hrel f (List.mem_cons_self f rest)
    have hmo : mapOutput i o f = .ok (o ++ pyWithSuffix rel (str ".png")) := by
      simp [mapOutput, hrelf]
    set outp := o ++ pyWithSuffix rel (str ".png") with houtp
    obtain ⟨dirs1, hmk⟩ := pyMkdir_noFail dirs fail outp.dropLast
      (hfail outp.dropLast)
    obtain ⟨tasks2, dirs2, tr2, hp⟩ :=
      ih dirs1 (fun g hg => hrel g (List.mem_cons_of_mem f hg))
    refine ⟨(f, outp) :: tasks2, dirs2, .mkdir outp.dropLast :: tr2, ?_⟩
    rw [prepTasks, hmo]
    dsimp only
    rw [hmk]
    dsimp only
    rw [hp]
    rfl

/-! ### Aggregation lemmas -/

lemma aggregate_eq_counts : ∀ bs : List Bool,
    aggregate bs = (bs.count true, bs.count false) := by
  intro bs
  induction bs with
  | nil => rfl
  | cons b rest ih => cases b <;> simp [aggregate, ih, List.count_cons]

lemma count_true_add_count_false (bs : List Bool) :
    bs.count true + bs.count false = bs.length := by
  induction bs with
  | nil => rfl
  | cons b rest ih => cases b <;> simp [List.count_cons] <;> omega

lemma count_true_map (l : List FPath) (p : FPath → Bool) :
    (l.map p).count true = (l.filter p).length := by
  induction l with
  | nil => rfl
  | cons x l ih =>
    cases hx : p x <;> simp [List.count_cons, List.filter_cons, hx, ih]

lemma count_false_map (l : List FPath) (p : FPath → Bool) :
    (l.map p).count false = (l.filter (fun x => ! p x)).length := by
  induction l with
  | nil => rfl
  | cons x l ih =>
    cases hx : p x <;> simp [List.count_cons, List.filter_cons, hx, ih]

/-! ### Run anatomy -/

/-- Case analysis of a `process_directory` run: the output-root `mkdir`
fails, or discovery is empty, or preparation aborts, or the run
completes with a tally. -/
lemma run_shape (i o : FPath) (ct : String) (mw : Nat) (w : World) :
    (∃ e, pyMkdir w.dirs w.mkdirFail o true true = .error e ∧
        processDirectory i o ct mw w = ⟨.error e, [.mkdir o], w.dirs⟩) ∨
    (∃ dirs0, pyMkdir w.dirs w.mkdirFail o true true = .ok dirs0 ∧
      ((discover i w.fs ct = [] ∧
          processDirectory i o ct mw w =
            ⟨.ok none, scanEvents ct o ++ [.notice], dirs0⟩) ∨
       (discover i w.fs ct ≠ [] ∧
        ∃ res dirs1 tr,
          prepTasks i o w.mkdirFail (discover i w.fs ct) dirs0 =
            (res, dirs1, tr) ∧
          ((∃ e, res = .error e ∧
              processDirectory i o ct mw w =
                ⟨.error e, scanEvents ct o ++ tr, dirs1⟩) ∨
           (∃ tasks, res = .ok tasks ∧
              processDirectory i o ct mw w =
                ⟨.ok (some
                    ⟨(aggregate (tasks.map (fun t => w.convOk t.1))).1,
                     (aggregate (tasks.map (fun t => w.convOk t.1))).2⟩),
                  scanEvents ct o ++ tr
                    ++ tasks.map Event.submit
                    ++ tasks.map (fun t => Event.complete t (w.convOk t.1)),
                  dirs1⟩))))) := by
  rcases hpm : pyMkdir w.dirs w.mkdirFail o true true with e | dirs0
  · left
    exact ⟨e, rfl, by simp [processDirectory, hpm]⟩
  · right
    refine ⟨dirs0, rfl, ?_⟩
    by_cases hemp : discover i w.fs ct = []
    · left
      exact ⟨hemp, by simp [processDirectory, hpm, hemp]⟩
    · right
      refine ⟨hemp, ?_⟩
      have hne : (discover i w.fs ct).isEmpty = false := by
        simpa [List.isEmpty_iff] using hemp
      cases hp : prepTasks i o w.mkdirFail (discover i w.fs ct) dirs0 with
      | mk res pr =>
      obtain ⟨dirs1, tr⟩ := pr
      refine ⟨res, dirs1, tr, rfl, ?_⟩
      cases res with
      | error e =>
        left
        exact ⟨e, rfl, by simp [processDirectory, hpm, hne, hp]⟩
      | ok tasks =>
        right
        exact ⟨tasks, rfl, by simp [processDirectory, hpm, hne, hp]⟩

/-! ### Event-ordering helpers -/

lemma isSubmit_of_isMkdir {e : Event} (h : isMkdir e = true) :
    isSubmit e = false := by
  cases e <;> simp_all [isMkdir, isSubmit]

lemma scanEvents_no_submit (ct : String) (o : FPath) :
    ∀ e ∈ scanEvents ct o, isSubmit e = false := by
  intro e he
  rcases List.mem_cons.mp he with rfl | he2
  · rfl
  · obtain ⟨ext, -, rfl⟩ := List.mem_map.mp he2
    rfl

/-- Out-of-range `getD` yields the default. -/
lemma getD_default {l : List Event} {n : Nat} (h : l.length ≤ n) :
    l.getD n Event.notice = Event.notice := by
  simp [List.getD_eq_getElem?_getD, List.getElem?_eq_none h]

/-- In a trace split as `l1 ++ l2` with no `q`-event in `l1` and no
`p`-event in `l2`, every `p`-event's index precedes every `q`-event's
index. -/
lemma partition_getD_lt {l1 l2 : List Event} {p q : Event → Bool}
    (h1 : ∀ e ∈ l2, p e = false) (h2 : ∀ e ∈ l1, q e = false)
    (hpd : p Event.notice = false) (hqd : q Event.notice = false)
    (a b : Nat)
    (hpa : p ((l1 ++ l2).getD a Event.notice) = true)
    (hqb : q ((l1 ++ l2).getD b Event.notice) = true) :
    a < b := by
  have ha : a < (l1 ++ l2).length := by
    by_contra hc
    push_neg at hc
    rw [getD_default hc] at hpa
    rw [hpd] at hpa
    cases hpa
  have hb : b < (l1 ++ l2).length := by
    by_contra hc
    push_neg at hc
    rw [getD_default hc] at hqb
    rw [hqd] at hqb
    cases hqb
  rw [List.getD_eq_getElem?_getD, List.getElem?_eq_getElem ha,
    Option.getD_some] at hpa
  rw [List.getD_eq_getElem?_getD, List.getElem?_eq_getElem hb,
    Option.getD_some] at hqb
  have hal : a < l1.length := by
    by_contra hc
    push_neg at hc
    rw [List.getElem_append_right hc] at hpa
    have hj : a - l1.length < l2.length := by
      rw [List.length_append] at ha
      omega
    have hmem : l2[a - l1.length] ∈ l2 := List.getElem_mem hj
    rw [h1 _ hmem] at hpa
    cases hpa
  have hbl : l1.length ≤ b := by
    by_contra hc
    push_neg at hc
    rw [List.getElem_append_left hc] at hqb
    have hmem : l1[b] ∈ l1 := List.getElem_mem hc
    rw [h2 _ hmem] at hqb
    cases hqb
  omega

/-! ### Output-path helpers -/

lemma matchesExt_concat (ext : Name) (q : FPath) (n : Name) :
    matchesExt ext (q ++ [n]) = ext.isSuffixOf n := by
  unfold matchesExt
  rw [List.getLast?_concat]

lemma withSuffixName_endsWith (n suf : Name) :
    suf.isSuffixOf (pyWithSuffixName n suf) = true := by
  rw [pyWithSuffixName]
  simp [List.isSuffixOf]

/-- The output path computed for a discovered file: the output root,
then the input-relative path with its last suffix replaced by `.png`;
its file name ends with `.png`. -/
lemma mapOutput_discovered {i o f outp : FPath} {fs : List FPath}
    {ct : String} (hf : f ∈ discover i fs ct)
    (hmo : mapOutput i o f = .ok outp) :
    ∃ rel, pyRelativeTo f i = .ok rel ∧
      outp = o ++ pyWithSuffix rel (str ".png") ∧
      matchesExt (str ".png") outp = true := by
  obtain ⟨p, hp, rfl, ext, hext, hm⟩ := discover_mem hf
  have hrel : pyRelativeTo (i ++ p) i = .ok p := pyRelativeTo_append i p
  unfold mapOutput at hmo
  rw [hrel] at hmo
  dsimp only at hmo
  have houtp : outp = o ++ pyWithSuffix p (str ".png") := by
    cases hmo; rfl
  refine ⟨p, hrel, houtp, ?_⟩
  obtain ⟨q, n, rfl, -⟩ := matchesExt_decomp hm
  rw [houtp, pyWithSuffix_concat, ← List.append_assoc, matchesExt_concat]
  exact withSuffixName_endsWith n (str ".png")

lemma append_singleton_inj {α : Type _} {a b : List α} {x y : α} :
    a ++ [x] = b ++ [y] ↔ a = b ∧ x = y := by
  constructor
  · intro h
    have h2 := List.append_inj' h rfl
    exact ⟨h2.1, by simpa using h2.2⟩
  · rintro ⟨rfl, rfl⟩
    rfl

/-- The output path of a discovered file, explicitly: the output root,
the file's directories below the input root, and the stem with `.png`
appended. -/
lemma mapOutput_concat (i o q : FPath) (n : Name) :
    mapOutput i o (i ++ (q ++ [n])) =
      .ok (o ++ (q ++ [pyStemName n ++ str ".png"])) := by
  unfold mapOutput
  rw [pyRelativeTo_append]
  dsimp only
  rw [pyWithSuffix_concat, pyWithSuffixName_eq_stem_append]

/-- Two discovered files collide on their output path exactly when they
agree on everything but the suffix of their file name. -/
lemma mapOutput_collision_iff {i o : FPath} {fs : List FPath} {ct : String}
    {f1 f2 : FPath} (h1 : f1 ∈ discover i fs ct)
    (h2 : f2 ∈ discover i fs ct) :
    (mapOutput i o f1 = mapOutput i o f2 ↔ stemPath f1 = stemPath f2) := by
  obtain ⟨p1, -, rfl, _, -, hm1⟩ := discover_mem h1
  obtain ⟨p2, -, rfl, _, -, hm2⟩ := discover_mem h2
  obtain ⟨q1, n1, rfl, -⟩ := matchesExt_decomp hm1
  obtain ⟨q2, n2, rfl, -⟩ := matchesExt_decomp hm2
  rw [mapOutput_concat, mapOutput_concat]
  rw [show i ++ (q1 ++ [n1]) = (i ++ q1) ++ [n1] from
    (List.append_assoc i q1 [n1]).symm]
  rw [show i ++ (q2 ++ [n2]) = (i ++ q2) ++ [n2] from
    (List.append_assoc i q2 [n2]).symm]
  rw [stemPath_concat, stemPath_concat]
  constructor
  · intro h
    have h' := (List.append_right_inj o).mp (Except.ok.inj h)
    obtain ⟨hq, hs⟩ := append_singleton_inj.mp h'
    have hst : pyStemName n1 = pyStemName n2 :=
      (List.append_left_inj (str ".png")).mp hs
    rw [hq, hst]
  · intro h
    obtain ⟨hq, hs⟩ := append_singleton_inj.mp h
    have hqq : q1 = q2 := (List.append_right_inj i).mp hq
    rw [hqq, hs]

/-- A trace with no `q`-event at all admits no `q`-index. -/
lemma no_q_getD {l : List Event} {q : Event → Bool}
    (h2 : ∀ e ∈ l, q e = false) (hqd : q Event.notice = false)
    (b : Nat) (hqb : q (l.getD b Event.notice) = true) : False := by
  rcases lt_or_le b l.length with hb | hb
  · rw [List.getD_eq_getElem?_getD, List.getElem?_eq_getElem hb,
      Option.getD_some] at hqb
    rw [h2 _ (List.getElem_mem _)] at hqb
    cases hqb
  · rw [getD_default hb, hqd] at hqb
    cases hqb

/-! ### Diagnostic-message lemmas -/

lemma errMsg_infix_path (ip : FPath) (e : String) :
    List.intercalate (str "/") ip <:+: errMsg ip e := by
  refine ⟨str "Erro ao converter ", str ": " ++ str e, ?_⟩
  simp [errMsg]

lemma errMsg_infix_err (ip : FPath) (e : String) :
    str e <:+: errMsg ip e := by
  refine ⟨str "Erro ao converter " ++ List.intercalate (str "/") ip
    ++ str ": ", [], ?_⟩
  simp [errMsg]

/-! ### Claim theorems -/

/-- C1: for every run of `process_directory` that completes with a
tally, the successful counter is the number of dispatched tasks whose
conversion succeeded, the failed counter the number whose conversion
failed — each task's boolean result increments exactly one of the two
counters — and successful + failed equals the number of discovered
files, which is the number of dispatched tasks. -/
theorem run_tally_partitions_dispatched_tasks
    (i o : FPath) (ct : String) (mw : Nat) (w : World) (r : RunResult)
    (h : (processDirectory i o ct mw w).result = .ok (some r)) :
    r.successful = ((discover i w.fs ct).filter w.convOk).length ∧
    r.failed = ((discover i w.fs ct).filter (fun f => ! w.convOk f)).length ∧
    r.successful + r.failed = (discover i w.fs ct).length := by
  rcases run_shape i o ct mw w with ⟨e, -, hout⟩ | ⟨dirs0, hpm, hbr⟩
  · rw [hout] at h
    simp at h
  · rcases hbr with ⟨hemp, hout⟩ | ⟨hne, res, dirs1, tr, hp, hbr2⟩
    · rw [hout] at h
      simp at h
    · rcases hbr2 with ⟨e, hres, hout⟩ | ⟨tasks, hres, hout⟩
      · rw [hout] at h
        simp at h
      · subst hres
        rw [hout] at h
        dsimp only at h
        injection h with h1
        injection h1 with h2
        subst h2
        obtain ⟨hfst, -, -, -⟩ := prepTasks_ok_spec i o w.mkdirFail _ dirs0 hp
        have hmm : tasks.map (fun t => w.convOk t.1)
            = (discover i w.fs ct).map w.convOk := by
          rw [← hfst, List.map_map]
          rfl
        have hagg : aggregate ((discover i w.fs ct).map w.convOk)
            = (((discover i w.fs ct).filter w.convOk).length,
               ((discover i w.fs ct).filter (fun f => ! w.convOk f)).length) := by
          rw [aggregate_eq_counts, count_true_map, count_false_map]
        have hsum : ((discover i w.fs ct).filter w.convOk).length +
            ((discover i w.fs ct).filter (fun f => ! w.convOk f)).length =
            (discover i w.fs ct).length := by
          rw [← count_true_map _ w.convOk, ← count_false_map _ w.convOk,
            count_true_add_count_false, List.length_map]
        refine ⟨?_, ?_, ?_⟩ <;> dsimp only <;> rw [hmm, hagg]
        · exact hsum

/-- C2: every task submitted by `process_directory` to the pool writes
to the output root joined with the input file's root-relative path
with its extension replaced by the literal lower-case `.png`; in
particular the output file name always ends with `.png`, whatever the
casing of the source extension. -/
theorem submitted_output_rerooted_relative_png
    (i o : FPath) (ct : String) (mw : Nat) (w : World) (inp outp : FPath)
    (h : Event.submit (inp, outp) ∈ (processDirectory i o ct mw w).trace) :
    ∃ rel, pyRelativeTo inp i = .ok rel ∧
      outp = o ++ pyWithSuffix rel (str ".png") ∧
      matchesExt (str ".png") outp = true := by
  rcases run_shape i o ct mw w with ⟨e, -, hout⟩ | ⟨dirs0, hpm, hbr⟩
  · rw [hout] at h
    simp at h
  · rcases hbr with ⟨hemp, hout⟩ | ⟨hne, res, dirs1, tr, hp, hbr2⟩
    · rw [hout] at h
      simp [scanEvents] at h
    · rcases hbr2 with ⟨e, hres, hout⟩ | ⟨tasks, hres, hout⟩
      · subst hres
        rw [hout] at h
        dsimp only at h
        rw [List.mem_append] at h
        rcases h with h | h
        · have := scanEvents_no_submit ct o _ h
          simp [isSubmit] at this
        · have := prepTasks_trace_mkdir i o w.mkdirFail _ dirs0 hp _ h
          have h2 := isSubmit_of_isMkdir this
          simp [isSubmit] at h2
      · subst hres
        rw [hout] at h
        dsimp only at h
        rw [List.mem_append, List.mem_append, List.mem_append] at h
        rcases h with ((h | h) | h) | h
        · have := scanEvents_no_submit ct o _ h
          simp [isSubmit] at this
        · have := prepTasks_trace_mkdir i o w.mkdirFail _ dirs0 hp _ h
          have h2 := isSubmit_of_isMkdir this
          simp [isSubmit] at h2
        · obtain ⟨t, ht, hte⟩ := List.mem_map.mp h
          injection hte with hte2
          subst hte2
          obtain ⟨hfst, hmo, -, -⟩ :=
            prepTasks_ok_spec i o w.mkdirFail _ dirs0 hp
          have hinp : inp ∈ discover i w.fs ct := by
            rw [← hfst]
            exact List.mem_map_of_mem Prod.fst ht
          exact mapOutput_discovered hinp (hmo _ ht)
        · obtain ⟨t, -, hte⟩ := List.mem_map.mp h
          cases hte

/-- C3 counterexample: the files `in/photo.heic` and `in/photo.HEIC`
are both discovered for the HEIC extension set, are distinct, yet map
to the same output path `out/photo.png` — the output-path mapping is
not injective over discovered files. -/
theorem output_mapping_not_injective_counterexample :
    exHeic ∈ discover exIn exFs "HEIC" ∧
    exHEIC ∈ discover exIn exFs "HEIC" ∧
    exHeic ≠ exHEIC ∧
    mapOutput exIn exOut exHeic = mapOutput exIn exOut exHEIC :=
  ⟨by decide, by decide, by decide, by decide⟩

/-- C3 amended: for a fixed input/output root pair, two discovered
files map to the same output path exactly when they differ only in the
suffix of their file name (same directories, same stem); files whose
suffix-stripped paths differ map to distinct output paths. -/
theorem output_collision_iff_differ_only_in_suffix
    (i o : FPath) (fs : List FPath) (ct : String) (f1 f2 : FPath)
    (h1 : f1 ∈ discover i fs ct) (h2 : f2 ∈ discover i fs ct) :
    (mapOutput i o f1 = mapOutput i o f2 ↔ stemPath f1 = stemPath f2) :=
  mapOutput_collision_iff h1 h2

/-- Witness for the amended C3 at a concrete collision. -/
theorem output_collision_iff_differ_only_in_suffix_witness :
    (mapOutput exIn exOut exHeic = mapOutput exIn exOut exHEIC ↔
      stemPath exHeic = stemPath exHEIC) :=
  output_collision_iff_differ_only_in_suffix exIn exOut exFs "HEIC"
    exHeic exHEIC (by decide) (by decide)

/-- C4: file discovery matches extensions case-sensitively as literal
suffix strings: a file of the subtree is discovered exactly when its
name ends with one of the listed extension strings; in particular
`photo.Heic` is not discovered when only `.heic`, `.HEIC`, `.heif`,
`.HEIF` are listed. -/
theorem discovery_case_sensitive_literal_suffixes :
    (∀ (i : FPath) (fs : List FPath) (ct : String) (p : FPath),
        (i ++ p) ∈ discover i fs ct ↔
          p ∈ fs ∧ ∃ ext ∈ extensionsFor ct, matchesExt ext p = true) ∧
    discover exIn [[str "photo.Heic"]] "HEIC" = [] :=
  ⟨discover_iff, by decide⟩

/-- C5: neither conversion adapter lets an exception escape: every call
returns exactly `true` with no diagnostic, or `false` with a single
diagnostic line containing the failing input path and the underlying
error text. -/
theorem adapters_never_raise_and_diagnose :
    ∀ (penv : PilEnv) (wenv : WandEnv) (ip op : FPath),
      (convert_heic_to_png penv ip op = (true, []) ∨
        ∃ e, convert_heic_to_png penv ip op = (false, [errMsg ip e]) ∧
          List.intercalate (str "/") ip <:+: errMsg ip e ∧
          str e <:+: errMsg ip e) ∧
      (convert_cr2_to_png wenv ip op = (true, []) ∨
        ∃ e, convert_cr2_to_png wenv ip op = (false, [errMsg ip e]) ∧
          List.intercalate (str "/") ip <:+: errMsg ip e ∧
          str e <:+: errMsg ip e) := by
  intro penv wenv ip op
  constructor
  · unfold convert_heic_to_png
    cases ho : penv.openRes ip with
    | error e =>
      exact .inr ⟨e, rfl, errMsg_infix_path ip e, errMsg_infix_err ip e⟩
    | ok u =>
      cases hs : penv.saveRes ip op with
      | error e =>
        exact .inr ⟨e, rfl, errMsg_infix_path ip e, errMsg_infix_err ip e⟩
      | ok u2 => exact .inl rfl
  · unfold convert_cr2_to_png
    cases ho : wenv.openRes ip with
    | error e =>
      exact .inr ⟨e, rfl, errMsg_infix_path ip e, errMsg_infix_err ip e⟩
    | ok u =>
      cases hs : wenv.saveRes ip op ⟨"png", 90, wenv.alphaChannel ip⟩ with
      | error e =>
        exact .inr ⟨e, rfl, errMsg_infix_path ip e, errMsg_infix_err ip e⟩
      | ok u2 => exact .inl rfl

/-- C6: when discovery finds zero matching files, `process_directory`
emits the notice and returns without producing a tally, and the worker
pool is never invoked — no task is ever submitted; zero matches is not
an error. -/
theorem empty_discovery_short_circuits
    (i o : FPath) (ct : String) (mw : Nat) (w : World)
    (hempty : discover i w.fs ct = [])
    (hok : w.mkdirFail o = false) :
    (processDirectory i o ct mw w).result = .ok none ∧
    Event.notice ∈ (processDirectory i o ct mw w).trace ∧
    (processDirectory i o ct mw w).trace.all (fun e => ! isSubmit e)
      = true := by
  rcases run_shape i o ct mw w with ⟨e, hpm, hout⟩ | ⟨dirs0, hpm, hbr⟩
  · obtain ⟨dirs', hok2⟩ := pyMkdir_noFail w.dirs w.mkdirFail o hok
    rw [hok2] at hpm
    cases hpm
  · rcases hbr with ⟨-, hout⟩ | ⟨hne, -⟩
    · rw [hout]
      refine ⟨rfl, by simp [scanEvents], ?_⟩
      dsimp only
      rw [List.all_eq_true]
      intro e he
      rcases List.mem_append.mp he with h | h
      · rw [scanEvents_no_submit ct o e h]
        rfl
      · rcases List.mem_singleton.mp h with rfl
        rfl
    · exact absurd hempty hne

/-- Witness for C6: a concrete run over an empty subtree. -/
theorem empty_discovery_short_circuits_witness :
    (processDirectory exIn exOut "HEIC" 16 exEmptyWorld).result
        = .ok none ∧
    Event.notice ∈ (processDirectory exIn exOut "HEIC" 16 exEmptyWorld).trace ∧
    (processDirectory exIn exOut "HEIC" 16 exEmptyWorld).trace.all
        (fun e => ! isSubmit e) = true :=
  empty_discovery_short_circuits exIn exOut "HEIC" 16 exEmptyWorld
    (by decide) rfl

/-- C7, behavior of the code at the failing input: with input files
`d/a.heic` and `b.heic`, when creating the first task's output parent
`out/d` fails with an `OSError`, the exception escapes
`process_directory`: the whole run aborts with no tally, and no task —
not even the unaffected `b.heic` — is ever dispatched. -/
theorem mkdir_failure_aborts_whole_run :
    (processDirectory exIn exOut "HEIC" 16 exBadWorld).result
        = .error (.osError [str "out", str "d"]) ∧
    (processDirectory exIn exOut "HEIC" 16 exBadWorld).trace.all
        (fun e => ! isSubmit e) = true :=
  ⟨by decide, by decide⟩

/-- C8: every directory-creation event of a run precedes every task
submission (so each output parent directory exists before any task is
dispatched), the parent of every submitted task's output path is among
the directories existing when it is dispatched, and directory creation
is idempotent: when no genuine filesystem failure occurs the run never
errors — in particular never because an output directory already
exists, so re-running the same conversion cannot fail that way. -/
theorem parent_dirs_exist_before_dispatch
    (i o : FPath) (ct : String) (mw : Nat) (w : World) :
    (∀ a b : Nat,
        isMkdir ((processDirectory i o ct mw w).trace.getD a Event.notice)
          = true →
        isSubmit ((processDirectory i o ct mw w).trace.getD b Event.notice)
          = true →
        a < b) ∧
    (∀ t : Task, Event.submit t ∈ (processDirectory i o ct mw w).trace →
        t.2.dropLast ∈ (processDirectory i o ct mw w).dirs) ∧
    ((∀ d, w.mkdirFail d = false) →
        ∃ v, (processDirectory i o ct mw w).result = .ok v) := by
  refine ⟨?_, ?_, ?_⟩
  · intro a b hpa hqb
    rcases run_shape i o ct mw w with ⟨e, -, hout⟩ | ⟨dirs0, hpm, hbr⟩
    · rw [hout] at hqb
      dsimp only at hqb
      refine absurd hqb ?_
      intro hqb
      refine no_q_getD ?_ rfl b hqb
      intro e2 he2
      rcases List.mem_singleton.mp he2 with rfl
      rfl
    · rcases hbr with ⟨-, hout⟩ | ⟨-, res, dirs1, tr, hp, hbr2⟩
      · rw [hout] at hqb
        dsimp only at hqb
        refine absurd hqb ?_
        intro hqb
        refine no_q_getD ?_ rfl b hqb
        intro e2 he2
        rcases List.mem_append.mp he2 with h | h
        · exact scanEvents_no_submit ct o e2 h
        · rcases List.mem_singleton.mp h with rfl
          rfl
      · rcases hbr2 with ⟨e, hres, hout⟩ | ⟨tasks, hres, hout⟩
        · rw [hout] at hqb
          dsimp only at hqb
          refine absurd hqb ?_
          intro hqb
          refine no_q_getD ?_ rfl b hqb
          intro e2 he2
          rcases List.mem_append.mp he2 with h | h
          · exact scanEvents_no_submit ct o e2 h
          · exact isSubmit_of_isMkdir
              (prepTasks_trace_mkdir i o w.mkdirFail _ dirs0 hp e2 h)
        · rw [hout] at hpa hqb
          dsimp only at hpa hqb
          rw [List.append_assoc (scanEvents ct o ++ tr)] at hpa hqb
          refine partition_getD_lt ?_ ?_ rfl rfl a b hpa hqb
          · intro e2 he2
            rcases List.mem_append.mp he2 with h | h
            · obtain ⟨t, -, rfl⟩ := List.mem_map.mp h
              rfl
            · obtain ⟨t, -, rfl⟩ := List.mem_map.mp h
              rfl
          · intro e2 he2
            rcases List.mem_append.mp he2 with h | h
            · exact scanEvents_no_submit ct o e2 h
            · exact isSubmit_of_isMkdir
                (prepTasks_trace_mkdir i o w.mkdirFail _ dirs0 hp e2 h)
  · intro t ht
    rcases run_shape i o ct mw w with ⟨e, -, hout⟩ | ⟨dirs0, hpm, hbr⟩
    · rw [hout] at ht
      simp at ht
    · rcases hbr with ⟨-, hout⟩ | ⟨-, res, dirs1, tr, hp, hbr2⟩
      · rw [hout] at ht
        simp [scanEvents] at ht
      · rcases hbr2 with ⟨e, hres, hout⟩ | ⟨tasks, hres, hout⟩
        · subst hres
          rw [hout] at ht
          dsimp only at ht
          rcases List.mem_append.mp ht with h | h
          · have := scanEvents_no_submit ct o _ h
            simp [isSubmit] at this
          · have := isSubmit_of_isMkdir
              (prepTasks_trace_mkdir i o w.mkdirFail _ dirs0 hp _ h)
            simp [isSubmit] at this
        · subst hres
          rw [hout] at ht ⊢
          dsimp only at ht ⊢
          rw [List.mem_append, List.mem_append, List.mem_append] at ht
          rcases ht with ((h | h) | h) | h
          · have := scanEvents_no_submit ct o _ h
            simp [isSubmit] at this
          · have := isSubmit_of_isMkdir
              (prepTasks_trace_mkdir i o w.mkdirFail _ dirs0 hp _ h)
            simp [isSubmit] at this
          · obtain ⟨t2, ht2, hte⟩ := List.mem_map.mp h
            injection hte with hte2
            subst hte2
            obtain ⟨-, -, hpar, -⟩ :=
              prepTasks_ok_spec i o w.mkdirFail _ dirs0 hp
            exact hpar _ ht2
          · obtain ⟨t2, -, hte⟩ := List.mem_map.mp h
            cases hte
  · intro hfail
    rcases run_shape i o ct mw w with ⟨e, hpm, -⟩ | ⟨dirs0, hpm, hbr⟩
    · obtain ⟨dirs', hok2⟩ := pyMkdir_noFail w.dirs w.mkdirFail o (hfail o)
      rw [hok2] at hpm
      cases hpm
    · rcases hbr with ⟨-, hout⟩ | ⟨-, res, dirs1, tr, hp, hbr2⟩
      · exact ⟨none, by rw [hout]⟩
      · rcases hbr2 with ⟨e, hres, hout⟩ | ⟨tasks, hres, hout⟩
        · subst hres
          have hrel : ∀ f ∈ discover i w.fs ct,
              ∃ rel, pyRelativeTo f i = .ok rel := by
            intro f hf
            obtain ⟨p, -, rfl, -⟩ := discover_mem hf
            exact ⟨p, pyRelativeTo_append i p⟩
          obtain ⟨tasks2, dirs2, tr2, hp2⟩ :=
            prepTasks_noFail i o w.mkdirFail hfail _ dirs0 hrel
          rw [hp2] at hp
          simp at hp
        · exact ⟨_, by rw [hout]⟩

/-- Witness for C8: a concrete no-failure run completes without an
uncaught error. -/
theorem parent_dirs_exist_before_dispatch_witness :
    ∃ v, (processDirectory exIn exOut "HEIC" 16 exWorld).result = .ok v :=
  (parent_dirs_exist_before_dispatch exIn exOut "HEIC" 16 exWorld).2.2
    (fun _ => rfl)

/-- C9: with concurrency `N`, at no reachable state of the worker pool
do more than `N` conversions execute simultaneously: a queued task may
only start while a slot is free, so the running set never exceeds the
pool size. -/
theorem pool_concurrency_bounded
    (N : Nat) (res : Task → Bool) (tasks : List Task) (s : PoolState)
    (h : PoolReach N res ⟨tasks, [], []⟩ s) :
    s.running.length ≤ N := by
  induction h with
  | refl => simp
  | tail hmid step ih =>
    cases step with
    | start t rest running done hlt => simpa using hlt
    | finish queued r1 r2 t done =>
      simp only [List.length_append, List.length_cons] at ih ⊢
      omega

/-- Witness for C9: one dispatch step from a one-task queue stays
within the bound 3. -/
theorem pool_concurrency_bounded_witness :
    (PoolState.mk [] [exTask] []).running.length ≤ 3 :=
  pool_concurrency_bounded 3 (fun _ => true) [exTask] ⟨[], [exTask], []⟩
    (Relation.ReflTransGen.single
      (PoolStep.start exTask [] [] [] (by decide)))

/-- C10: provided the filesystem does not genuinely fail on the output
root, every invocation of `process_directory` creates the output root
before discovery runs — the very first event of the trace is its
`mkdir` — and the output root exists afterwards even when zero files
are discovered; when it did not exist beforehand, all its missing
parents are created too. -/
theorem output_root_created_before_discovery
    (i o : FPath) (ct : String) (mw : Nat) (w : World)
    (hok : w.mkdirFail o = false) :
    (processDirectory i o ct mw w).trace.head? = some (.mkdir o) ∧
    o ∈ (processDirectory i o ct mw w).dirs ∧
    (o ∉ w.dirs → ∀ k, o.take k ∈ (processDirectory i o ct mw w).dirs) := by
  rcases run_shape i o ct mw w with ⟨e, hpm, -⟩ | ⟨dirs0, hpm, hbr⟩
  · obtain ⟨dirs', hok2⟩ := pyMkdir_noFail w.dirs w.mkdirFail o hok
    rw [hok2] at hpm
    cases hpm
  · have hmem : o ∈ dirs0 := pyMkdir_ok_mem hpm
    have hchain : o ∉ w.dirs → ∀ k, o.take k ∈ dirs0 := by
      intro hnm k
      rw [pyMkdir_create_chain hok hnm] at hpm
      injection hpm with h1
      rw [← h1]
      exact List.mem_append_left _ (dirChain_take_mem o k)
    rcases hbr with ⟨-, hout⟩ | ⟨-, res, dirs1, tr, hp, hbr2⟩
    · rw [hout]
      exact ⟨by simp [scanEvents], hmem, fun hnm k => hchain hnm k⟩
    · have hsub : ∀ x ∈ dirs0, x ∈ dirs1 :=
        prepTasks_dirs_mono i o w.mkdirFail _ dirs0 hp
      rcases hbr2 with ⟨e, -, hout⟩ | ⟨tasks, -, hout⟩ <;> rw [hout] <;>
        exact ⟨by simp [scanEvents], hsub _ hmem,
          fun hnm k => hsub _ (hchain hnm k)⟩

/-- Witness for C10: the empty-discovery run still creates the output
root first. -/
theorem output_root_created_before_discovery_witness :
    (processDirectory exIn exOut "HEIC" 16 exEmptyWorld).trace.head?
        = some (.mkdir exOut) ∧
    exOut ∈ (processDirectory exIn exOut "HEIC" 16 exEmptyWorld).dirs ∧
    (exOut ∉ exEmptyWorld.dirs → ∀ k,
        exOut.take k ∈ (processDirectory exIn exOut "HEIC" 16
          exEmptyWorld).dirs) :=
  output_root_created_before_discovery exIn exOut "HEIC" 16 exEmptyWorld rfl

/-- Witness for C1: the concrete two-file run tallies one success and
one failure, matching the discovered files. -/
theorem run_tally_partitions_dispatched_tasks_witness :
    (⟨1, 1⟩ : RunResult).successful
        = ((discover exIn exWorld.fs "HEIC").filter exWorld.convOk).length ∧
    (⟨1, 1⟩ : RunResult).failed
        = ((discover exIn exWorld.fs "HEIC").filter
            (fun f => ! exWorld.convOk f)).length ∧
    (⟨1, 1⟩ : RunResult).successful + (⟨1, 1⟩ : RunResult).failed
        = (discover exIn exWorld.fs "HEIC").length :=
  run_tally_partitions_dispatched_tasks exIn exOut "HEIC" 16 exWorld
    ⟨1, 1⟩ (by decide)

/-- Witness for C2: the concrete task for `in/photo.heic` writes to
`out/photo.png`. -/
theorem submitted_output_rerooted_relative_png_witness :
    ∃ rel, pyRelativeTo exHeic exIn = .ok rel ∧
      [str "out", str "photo.png"] = exOut ++ pyWithSuffix rel (str ".png") ∧
      matchesExt (str ".png") [str "out", str "photo.png"] = true :=
  submitted_output_rerooted_relative_png exIn exOut "HEIC" 16 exWorld
    exHeic [str "out", str "photo.png"] (by decide)

end ConvertToPng
